import Mathlib

/-!
Verification of the markdown post loader (`post-api`) of a personal blog.

The loader reads every file in a posts directory, parses a front-matter
metadata block, validates it, renders the markdown body, and returns a
filtered, sorted list of `Post` records.  A tag-listing route loader then
filters that list by an exact tag match.

Embedding conventions:
* Filesystem reads and front-matter parsing are external; a post file is
  modelled as a `PostFile` carrying the already-parsed attributes and the
  raw body text.
* The external libraries `marked` + `cheerio` (render markdown, select the
  first `<p>` element and serialize it), `reading-time` and `vague-time`
  are modelled as abstract function parameters `render`, `rtime`, `vtime`;
  the loader's own post-processing of their output is embedded faithfully.
* `Promise.all` over fallible reads is modelled by `List.mapM` in the
  `Except` monad: one failure aborts the whole batch, as a rejected
  promise does.
* JavaScript string primitives (`split`, `trim`, `<`, the anchored regex
  replacements) are embedded as structural recursions over the character
  list of the string (`jsSplit`, `jsTrim`, `jsStrLt`, …), matching their
  lexicographic / textual semantics.  `Array.prototype.sort` with the
  comparator
  `(a, b) => a.postDate < b.postDate ? 1 : a.postDate > b.postDate ? -1 : 0`
  is embedded as `List.insertionSort` over the relation
  `postDateGE a b := jsStrLt a.postDate b.postDate = false` (the pairs the
  comparator does not order `b` before `a`).
-/

namespace PostApi

/-- The front-matter attributes of a post file, as parsed by the external
front-matter library.  `title` and `tags` are `Option` because the metadata
block may omit them; `draft` is the optional boolean of the source type. -/
structure RawAttributes where
  title : Option String
  author : String
  postDate : String
  tags : Option String
  draft : Option Bool
deriving DecidableEq

/-- A post file on disk, after the external front-matter split: its
filename, its parsed attributes, and its markdown body. -/
structure PostFile where
  filename : String
  attributes : RawAttributes
  body : String
deriving DecidableEq

/-- The `Post` record returned by the loader (source type `Post`). -/
structure Post where
  title : String
  author : String
  postDate : String
  tags : List String
  draft : Option Bool
  slug : String
  permalink : String
  excerpt : String
  readingTime : String
  relativeDate : String
deriving DecidableEq

/-- The data returned by the tag-listing route loader. -/
structure LoaderData where
  tag : String
  posts : List Post
deriving DecidableEq

/-- JavaScript `s.split(sep)` for a one-character separator: accumulate the
current token, emit it at each separator, and emit the trailing token at the
end (so the result always has at least one element; `"".split(',')` is
`[""]`). -/
def jsSplitAux (sep : Char) : List Char → List Char → List String
  | [], acc => [String.mk acc.reverse]
  | c :: cs, acc =>
      if c = sep then String.mk acc.reverse :: jsSplitAux sep cs []
      else jsSplitAux sep cs (c :: acc)

/-- JavaScript `s.split(sep)` on a `String`. -/
def jsSplit (s : String) (sep : Char) : List String :=
  jsSplitAux sep s.data []

/-- JavaScript `s.trim()`: drop whitespace from both ends. -/
def jsTrim (s : String) : String :=
  String.mk (((s.data.dropWhile Char.isWhitespace).reverse.dropWhile
    Char.isWhitespace).reverse)

/-- Lexicographic strict order on character lists: JavaScript `a < b` on
strings. -/
def charListLt : List Char → List Char → Bool
  | [], [] => false
  | [], _ :: _ => true
  | _ :: _, [] => false
  | x :: xs, y :: ys =>
      if x < y then true
      else if y < x then false
      else charListLt xs ys

/-- JavaScript string comparison `a < b`. -/
def jsStrLt (a b : String) : Bool :=
  charListLt a.data b.data

/-- Source `isValidPostAttributes`: the attributes object is valid exactly
when `attributes?.title` is truthy, i.e. the title is present and is a
non-empty string. -/
def isValidPostAttributes (a : RawAttributes) : Bool :=
  match a.title with
  | none => false
  | some t => t != ""

/-- Source `filename.replace(/\.md$/, '')`: strip a trailing `.md`. -/
def slugOf (filename : String) : String :=
  if List.isSuffixOf ".md".data filename.data then
    String.mk (filename.data.take (filename.data.length - 3))
  else filename

/-- Source `excerpt`: the argument is the serialization of the first `<p>`
element of the rendered HTML (produced by the external cheerio calls
`$.html($('p').first())`); the loader then trims it and strips a leading
`<p>` (regex `^<p>`) and a trailing `</p>` (regex `<\/p>$`). -/
def excerpt (firstParaHtml : String) : String :=
  let t := jsTrim firstParaHtml
  let t :=
    if List.isPrefixOf "<p>".data t.data then String.mk (t.data.drop 3) else t
  if List.isSuffixOf "</p>".data t.data then
    String.mk (t.data.take (t.data.length - 4))
  else t

/-- The `Post` built by the success branch of `readPost`: spread the
attributes, split the tags string (absent tags become `""`), derive slug,
permalink, excerpt, reading time and relative date.  `render` is
`marked` composed with the cheerio first-`<p>` serialization, `rtime` the
external `readingTime(body).text`, `vtime` the external
`vagueTime.get({to: postDate})`. -/
def mkPost (render rtime vtime : String → String) (f : PostFile) : Post :=
  let slug := slugOf f.filename
  { title := f.attributes.title.getD ""
    author := f.attributes.author
    postDate := f.attributes.postDate
    tags := jsSplit (f.attributes.tags.getD "") ','
    draft := f.attributes.draft
    slug := slug
    permalink := "/post/" ++ slug
    excerpt := excerpt (render f.body)
    readingTime := rtime f.body
    relativeDate := vtime f.attributes.postDate }

/-- Source `readPost`: validate the parsed attributes with
`invariant(isValidPostAttributes(attributes), filename + ' has bad meta data!')`
— an invalid file throws, modelled as `Except.error` — and otherwise build
the `Post`. -/
def readPost (render rtime vtime : String → String) (f : PostFile) :
    Except String Post :=
  if isValidPostAttributes f.attributes then
    Except.ok (mkPost render rtime vtime f)
  else
    Except.error (f.filename ++ " has bad meta data!")

/-- The draft filter `(p) => !p.draft`: keep a post unless its draft flag
is `true` (absent or `false` are both falsy). -/
def notDraft (p : Post) : Bool :=
  p.draft != some true

/-- The order the sort comparator
`(a, b) => a.postDate < b.postDate ? 1 : a.postDate > b.postDate ? -1 : 0`
establishes: `a` may stay before `b` exactly when the comparator does not
return `1`, i.e. when `a.postDate < b.postDate` is false. -/
def postDateGE (a b : Post) : Prop :=
  jsStrLt a.postDate b.postDate = false

instance : DecidableRel postDateGE :=
  fun a b => (inferInstance : Decidable (jsStrLt a.postDate b.postDate = false))

/-- `Promise.all(dir.map(readPost))`: map a fallible reader over the files;
one failure rejects the whole batch. -/
def mapExcept (g : PostFile → Except String Post) :
    List PostFile → Except String (List Post)
  | [] => Except.ok []
  | f :: fs =>
    match g f with
    | Except.error e => Except.error e
    | Except.ok p =>
      match mapExcept g fs with
      | Except.error e => Except.error e
      | Except.ok ps => Except.ok (p :: ps)

/-- Source `getPosts`: read every file of the directory (`Promise.all`,
fail-fast), drop drafts, and sort by `postDate` descending. -/
def getPosts (render rtime vtime : String → String) (files : List PostFile) :
    Except String (List Post) :=
  match mapExcept (readPost render rtime vtime) files with
  | Except.error e => Except.error e
  | Except.ok posts =>
    Except.ok (List.insertionSort postDateGE (posts.filter notDraft))

/-- Source tag-route `loader`: load all posts, assert a tag was supplied
(`invariant(typeof tag === 'string', 'No tag provided')` — checked after
`getPosts` resolves), and keep the posts whose tag list contains the tag. -/
def loader (render rtime vtime : String → String) (tag : Option String)
    (files : List PostFile) : Except String LoaderData :=
  match getPosts render rtime vtime files with
  | Except.error e => Except.error e
  | Except.ok posts =>
    match tag with
    | some t =>
      Except.ok { tag := t, posts := posts.filter (fun p => p.tags.contains t) }
    | none => Except.error "No tag provided"

/-- Claim-side definition, from the spec's words only (not from the source):
the tags attribute "split on commas with each resulting token trimmed of
surrounding whitespace".  Compared against the source's `mkPost` tags. -/
def trimmedTags (s : String) : List String :=
  (jsSplit s ',').map jsTrim

/-! ### Concrete fixtures used by witnesses and counterexamples -/

/-- A stand-in for the external render / reading-time / relative-date
functions in concrete evaluations. -/
def exRender : String → String := fun _ => ""

/-- A render function whose first-paragraph serialization is the example of
the excerpt claim. -/
def exRenderHello : String → String := fun _ => "<p>Hello <b>world</b></p>"

/-- Valid non-draft post file, dated 2020. -/
def exFileA : PostFile :=
  ⟨"a.md", ⟨some "A", "auth", "2020-01-01", some "a,b,c", none⟩, "bodyA"⟩

/-- Valid non-draft post file, dated 2021. -/
def exFileB : PostFile :=
  ⟨"b.md", ⟨some "B", "auth", "2021-06-01", none, some false⟩, "bodyB"⟩

/-- Valid draft post file. -/
def exFileDraft : PostFile :=
  ⟨"d.md", ⟨some "D", "auth", "2022-01-01", some "x", some true⟩, "bodyD"⟩

/-- Draft post file with a missing title (invalid metadata). -/
def exFileBad : PostFile :=
  ⟨"bad.md", ⟨none, "auth", "2019-01-01", none, some true⟩, "body"⟩

/-- Valid post file whose tags attribute has whitespace after a comma. -/
def exFileTags : PostFile :=
  ⟨"t.md", ⟨some "T", "auth", "2020-05-05", some "a, b", none⟩, "body"⟩

/-- The post read from `exFileA`. -/
def exPostA : Post := mkPost exRender exRender exRender exFileA

/-- The post read from `exFileB`. -/
def exPostB : Post := mkPost exRender exRender exRender exFileB

/-- The output of `getPosts` on `[exFileA, exFileB]`: sorted descending. -/
def exSorted : List Post := [exPostB, exPostA]

/-! ### Helper lemmas -/

lemma string_ext {a b : String} (h : a.data = b.data) : a = b :=
  congrArg String.mk h

lemma jsSplitAux_ne_nil (sep : Char) (l acc : List Char) :
    jsSplitAux sep l acc ≠ [] := by
  induction l generalizing acc with
  | nil => simp [jsSplitAux]
  | cons c cs ih =>
    simp only [jsSplitAux]
    split
    · exact List.cons_ne_nil _ _
    · exact ih _

lemma jsSplit_ne_nil (s : String) (sep : Char) : jsSplit s sep ≠ [] :=
  jsSplitAux_ne_nil sep s.data []

lemma charListLt_asymm : ∀ a b : List Char,
    charListLt a b = true → charListLt b a = false := by
  intro a
  induction a with
  | nil =>
    intro b h
    cases b with
    | nil => simp [charListLt] at h
    | cons y ys => simp [charListLt]
  | cons x xs ih =>
    intro b h
    cases b with
    | nil => simp [charListLt] at h
    | cons y ys =>
      by_cases hxy : x < y
      · simp [charListLt, hxy, lt_asymm hxy]
      · by_cases hyx : y < x
        · simp [charListLt, hxy, hyx] at h
        · simp [charListLt, hxy, hyx] at h ⊢
          exact ih ys h

lemma charListLt_conn : ∀ a b : List Char,
    charListLt a b = false → charListLt b a = false → a = b := by
  intro a
  induction a with
  | nil =>
    intro b h1 _
    cases b with
    | nil => rfl
    | cons y ys => simp [charListLt] at h1
  | cons x xs ih =>
    intro b h1 h2
    cases b with
    | nil => simp [charListLt] at h2
    | cons y ys =>
      by_cases hxy : x < y
      · simp [charListLt, hxy] at h1
      · by_cases hyx : y < x
        · simp [charListLt, hyx] at h2
        · have hx : x = y := le_antisymm (not_lt.1 hyx) (not_lt.1 hxy)
          simp [charListLt, hxy, hyx] at h1 h2
          rw [hx, ih ys h1 h2]

lemma charListLt_cotrans : ∀ a b c : List Char, charListLt a c = true →
    charListLt a b = true ∨ charListLt b c = true := by
  intro a
  induction a with
  | nil =>
    intro b c h
    cases c with
    | nil => simp [charListLt] at h
    | cons z zs =>
      cases b with
      | nil => exact Or.inr (by simp [charListLt])
      | cons y ys => exact Or.inl (by simp [charListLt])
  | cons x xs ih =>
    intro b c h
    cases c with
    | nil => simp [charListLt] at h
    | cons z zs =>
      cases b with
      | nil => exact Or.inr (by simp [charListLt])
      | cons y ys =>
        by_cases hxy : x < y
        · exact Or.inl (by simp [charListLt, hxy])
        · by_cases hyz : y < z
          · exact Or.inr (by simp [charListLt, hyz])
          · by_cases hxz : x < z
            · exact absurd
                (lt_of_lt_of_le hxz (le_trans (not_lt.1 hyz) (not_lt.1 hxy)))
                (lt_irrefl x)
            · by_cases hzx : z < x
              · simp [charListLt, hxz, hzx] at h
              · have hxz' : x = z := le_antisymm (not_lt.1 hzx) (not_lt.1 hxz)
                have hxy' : x = y :=
                  le_antisymm ((le_of_eq hxz').trans (not_lt.1 hyz)) (not_lt.1 hxy)
                subst hxy'
                subst hxz'
                simp [charListLt, lt_irrefl] at h ⊢
                exact ih ys zs h

instance : IsTotal Post postDateGE where
  total a b := by
    cases h : charListLt a.postDate.data b.postDate.data with
    | false => exact Or.inl h
    | true => exact Or.inr (charListLt_asymm _ _ h)

instance : IsTrans Post postDateGE where
  trans a b c hab hbc := by
    have hab' : charListLt a.postDate.data b.postDate.data = false := hab
    have hbc' : charListLt b.postDate.data c.postDate.data = false := hbc
    show charListLt a.postDate.data c.postDate.data = false
    cases h : charListLt a.postDate.data c.postDate.data with
    | false => rfl
    | true =>
      rcases charListLt_cotrans _ b.postDate.data _ h with h1 | h1
      · simp [hab'] at h1
      · simp [hbc'] at h1

lemma readPost_ok_valid {render rtime vtime : String → String} {f : PostFile}
    {p : Post} (h : readPost render rtime vtime f = Except.ok p) :
    isValidPostAttributes f.attributes = true := by
  cases hv : isValidPostAttributes f.attributes with
  | true => rfl
  | false => simp [readPost, hv] at h

lemma readPost_ok_elim {render rtime vtime : String → String} {f : PostFile}
    {p : Post} (h : readPost render rtime vtime f = Except.ok p) :
    p = mkPost render rtime vtime f := by
  cases hv : isValidPostAttributes f.attributes with
  | true =>
    simp [readPost, hv] at h
    exact h.symm
  | false => simp [readPost, hv] at h

lemma readPost_invalid {render rtime vtime : String → String} {f : PostFile}
    (h : isValidPostAttributes f.attributes = false) :
    readPost render rtime vtime f =
      Except.error (f.filename ++ " has bad meta data!") := by
  simp [readPost, h]

lemma mapExcept_ok_of_valid (render rtime vtime : String → String) :
    ∀ files : List PostFile,
      (∀ f ∈ files, isValidPostAttributes f.attributes = true) →
      mapExcept (readPost render rtime vtime) files =
        Except.ok (files.map (mkPost render rtime vtime)) := by
  intro files
  induction files with
  | nil => intro _; rfl
  | cons f fs ih =>
    intro h
    have hf := h f (List.mem_cons_self f fs)
    have hfs := ih fun g hg => h g (List.mem_cons_of_mem f hg)
    simp [mapExcept, readPost, hf, hfs]

lemma mapExcept_error_of_mem (render rtime vtime : String → String) :
    ∀ (files : List PostFile) (f : PostFile), f ∈ files →
      isValidPostAttributes f.attributes = false →
      ∃ e, mapExcept (readPost render rtime vtime) files = Except.error e := by
  intro files
  induction files with
  | nil =>
    intro f hf _
    cases hf
  | cons g fs ih =>
    intro f hf hbad
    rcases List.mem_cons.1 hf with rfl | hmem
    · exact ⟨f.filename ++ " has bad meta data!",
        by simp [mapExcept, readPost_invalid hbad]⟩
    · cases hg : readPost render rtime vtime g with
      | error e => exact ⟨e, by simp [mapExcept, hg]⟩
      | ok p =>
        obtain ⟨e, he⟩ := ih f hmem hbad
        exact ⟨e, by simp [mapExcept, hg, he]⟩

lemma getPosts_eq_ok (render rtime vtime : String → String)
    (files : List PostFile) (posts : List Post)
    (h : mapExcept (readPost render rtime vtime) files = Except.ok posts) :
    getPosts render rtime vtime files =
      Except.ok (List.insertionSort postDateGE (posts.filter notDraft)) := by
  simp [getPosts, h]

lemma getPosts_eq_error (render rtime vtime : String → String)
    (files : List PostFile) (e : String)
    (h : mapExcept (readPost render rtime vtime) files = Except.error e) :
    getPosts render rtime vtime files = Except.error e := by
  simp [getPosts, h]

lemma getPosts_ok_elim (render rtime vtime : String → String)
    (files : List PostFile) (l : List Post)
    (h : getPosts render rtime vtime files = Except.ok l) :
    ∃ posts, mapExcept (readPost render rtime vtime) files = Except.ok posts ∧
      l = List.insertionSort postDateGE (posts.filter notDraft) := by
  cases hm : mapExcept (readPost render rtime vtime) files with
  | error e =>
    rw [getPosts_eq_error render rtime vtime files e hm] at h
    cases h
  | ok posts =>
    rw [getPosts_eq_ok render rtime vtime files posts hm] at h
    exact ⟨posts, rfl, (Except.ok.inj h).symm⟩

lemma getPosts_sorted (render rtime vtime : String → String)
    (files : List PostFile) (l : List Post)
    (h : getPosts render rtime vtime files = Except.ok l) :
    l.Sorted postDateGE := by
  obtain ⟨posts, -, rfl⟩ := getPosts_ok_elim render rtime vtime files l h
  exact List.sorted_insertionSort postDateGE _

lemma filter_map_comm (g : PostFile → Post) (q : Post → Bool)
    (files : List PostFile) :
    (files.map g).filter q = (files.filter (fun f => q (g f))).map g := by
  induction files with
  | nil => rfl
  | cons f fs ih =>
    cases hq : q (g f) <;> simp [List.map_cons, List.filter_cons, hq, ih]

/-! ### Claim theorems -/

/-- C1: for any two posts returned by `getPosts` with distinct `postDate`
values, the one at the earlier position has the strictly greater `postDate`
under string comparison — the list is in reverse chronological (descending)
order. -/
theorem getPosts_desc_iff (render rtime vtime : String → String)
    (files : List PostFile) (l : List Post)
    (h : getPosts render rtime vtime files = Except.ok l)
    (i j : Fin l.length)
    (hne : (l.get i).postDate ≠ (l.get j).postDate) :
    i < j ↔ jsStrLt (l.get j).postDate (l.get i).postDate = true := by
  have hs : l.Sorted postDateGE := getPosts_sorted render rtime vtime files l h
  constructor
  · intro hij
    have hr : charListLt (l.get i).postDate.data (l.get j).postDate.data = false :=
      hs.rel_get_of_lt hij
    cases hji : jsStrLt (l.get j).postDate (l.get i).postDate with
    | true => rfl
    | false =>
      have hji' : charListLt (l.get j).postDate.data (l.get i).postDate.data = false :=
        hji
      exact absurd (string_ext (charListLt_conn _ _ hr hji')) hne
  · intro hlt
    rcases lt_trichotomy i j with h1 | h1 | h1
    · exact h1
    · rw [h1] at hne
      exact absurd rfl hne
    · have hr : charListLt (l.get j).postDate.data (l.get i).postDate.data = false :=
        hs.rel_get_of_lt h1
      have hlt' : charListLt (l.get j).postDate.data (l.get i).postDate.data = true :=
        hlt
      rw [hr] at hlt'
      cases hlt'

/-- Witness for C1 at a concrete two-file directory. -/
theorem getPosts_desc_iff_witness :
    getPosts exRender exRender exRender [exFileA, exFileB] = Except.ok exSorted ∧
    (exSorted.get ⟨0, by decide⟩).postDate ≠ (exSorted.get ⟨1, by decide⟩).postDate ∧
    ((⟨0, by decide⟩ : Fin exSorted.length) < ⟨1, by decide⟩ ↔
      jsStrLt (exSorted.get ⟨1, by decide⟩).postDate
        (exSorted.get ⟨0, by decide⟩).postDate = true) :=
  ⟨rfl, by decide,
    getPosts_desc_iff exRender exRender exRender [exFileA, exFileB] exSorted rfl
      ⟨0, by decide⟩ ⟨1, by decide⟩ (by decide)⟩

/-- C2: no post with `draft = true` appears in the output of `getPosts`. -/
theorem getPosts_excludes_drafts (render rtime vtime : String → String)
    (files : List PostFile) (l : List Post) (p : Post)
    (h : getPosts render rtime vtime files = Except.ok l) (hp : p ∈ l) :
    p.draft ≠ some true := by
  obtain ⟨posts, hm, rfl⟩ := getPosts_ok_elim render rtime vtime files l h
  have hp' : p ∈ posts.filter notDraft :=
    (List.perm_insertionSort postDateGE _).mem_iff.1 hp
  have h2 := (List.mem_filter.1 hp').2
  intro heq
  simp [notDraft, heq] at h2

/-- Witness for C2 at a concrete directory containing a draft. -/
theorem getPosts_excludes_drafts_witness :
    getPosts exRender exRender exRender [exFileA, exFileDraft] =
      Except.ok [exPostA] ∧
    exPostA ∈ [exPostA] ∧ exPostA.draft ≠ some true :=
  ⟨rfl, List.mem_singleton.2 rfl,
    getPosts_excludes_drafts exRender exRender exRender [exFileA, exFileDraft]
      [exPostA] exPostA rfl (List.mem_singleton.2 rfl)⟩

/-- C3: a file whose metadata lacks a present, non-empty title makes
`readPost` fail with the assertion message, and the failure aborts the whole
`getPosts` batch rather than silently omitting the post. -/
theorem missing_title_aborts_batch (render rtime vtime : String → String)
    (files : List PostFile) (f : PostFile) (hf : f ∈ files)
    (hbad : isValidPostAttributes f.attributes = false) :
    readPost render rtime vtime f =
      Except.error (f.filename ++ " has bad meta data!") ∧
    ∃ e, getPosts render rtime vtime files = Except.error e := by
  refine ⟨readPost_invalid hbad, ?_⟩
  obtain ⟨e, he⟩ := mapExcept_error_of_mem render rtime vtime files f hf hbad
  exact ⟨e, getPosts_eq_error render rtime vtime files e he⟩

/-- Witness for C3 at a concrete directory with one bad file. -/
theorem missing_title_aborts_batch_witness :
    exFileBad ∈ [exFileA, exFileBad] ∧
    isValidPostAttributes exFileBad.attributes = false ∧
    (readPost exRender exRender exRender exFileBad =
      Except.error (exFileBad.filename ++ " has bad meta data!") ∧
     ∃ e, getPosts exRender exRender exRender [exFileA, exFileBad] =
       Except.error e) :=
  ⟨by decide, rfl,
    missing_title_aborts_batch exRender exRender exRender [exFileA, exFileBad]
      exFileBad (by decide) rfl⟩

/-- C4 counterexample: a valid draft file (title present) yields no `Post`
at all in the output of `getPosts`, so "exactly one Post per valid file" is
false as stated. -/
theorem one_post_per_file_cex :
    isValidPostAttributes exFileDraft.attributes = true ∧
    exFileDraft ∈ [exFileDraft] ∧
    getPosts exRender exRender exRender [exFileDraft] = Except.ok [] ∧
    ([] : List Post).length ≠ 1 :=
  ⟨rfl, by decide, rfl, by decide⟩

/-- C4 amended: for every valid post file whose draft flag is not `true`,
`getPosts` returns exactly one Post for that file — the output is a
permutation of one `Post` per valid non-draft file, no omissions and no
duplicates. -/
theorem one_post_per_valid_nondraft_file (render rtime vtime : String → String)
    (files : List PostFile)
    (h : ∀ f ∈ files, isValidPostAttributes f.attributes = true) :
    ∃ l, getPosts render rtime vtime files = Except.ok l ∧
      l.Perm ((files.filter (fun f => f.attributes.draft != some true)).map
        (mkPost render rtime vtime)) := by
  have hm := mapExcept_ok_of_valid render rtime vtime files h
  refine ⟨_, getPosts_eq_ok render rtime vtime files _ hm, ?_⟩
  refine (List.perm_insertionSort postDateGE _).trans ?_
  rw [filter_map_comm (mkPost render rtime vtime) notDraft files]
  have hq : files.filter (fun f => notDraft (mkPost render rtime vtime f)) =
      files.filter (fun f => f.attributes.draft != some true) :=
    List.filter_congr fun f _ => rfl
  rw [hq]

/-- Witness for the amended C4 at a concrete directory. -/
theorem one_post_per_valid_nondraft_file_witness :
    (∀ f ∈ [exFileA, exFileB, exFileDraft],
      isValidPostAttributes f.attributes = true) ∧
    ∃ l, getPosts exRender exRender exRender [exFileA, exFileB, exFileDraft] =
        Except.ok l ∧
      l.Perm (([exFileA, exFileB, exFileDraft].filter
        (fun f => f.attributes.draft != some true)).map
        (mkPost exRender exRender exRender)) :=
  ⟨by decide,
    one_post_per_valid_nondraft_file exRender exRender exRender
      [exFileA, exFileB, exFileDraft] (by decide)⟩

/-- C5 counterexample: for the tags attribute `"a, b"` the post's tags are
`["a", " b"]` — the tokens are not trimmed, so "split on commas with each
resulting token trimmed of surrounding whitespace" is false as stated. -/
theorem tags_trimmed_cex :
    readPost exRender exRender exRender exFileTags =
      Except.ok (mkPost exRender exRender exRender exFileTags) ∧
    (mkPost exRender exRender exRender exFileTags).tags = ["a", " b"] ∧
    (mkPost exRender exRender exRender exFileTags).tags ≠ trimmedTags "a, b" :=
  ⟨rfl, rfl, by decide⟩

/-- C5 amended: the tags field is the raw comma-separated attribute split on
commas with no trimming of the tokens; in particular for `"a,b,c"` the
result is exactly `["a", "b", "c"]`. -/
theorem tags_split_no_trim (render rtime vtime : String → String)
    (f : PostFile) (p : Post)
    (h : readPost render rtime vtime f = Except.ok p) :
    p.tags = jsSplit (f.attributes.tags.getD "") ',' ∧
    jsSplit "a,b,c" ',' = ["a", "b", "c"] := by
  refine ⟨?_, by decide⟩
  rw [readPost_ok_elim h]
  rfl

/-- Witness for the amended C5. -/
theorem tags_split_no_trim_witness :
    readPost exRender exRender exRender exFileA = Except.ok exPostA ∧
    (exPostA.tags = jsSplit (exFileA.attributes.tags.getD "") ',' ∧
     jsSplit "a,b,c" ',' = ["a", "b", "c"]) :=
  ⟨rfl, tags_split_no_trim exRender exRender exRender exFileA exPostA rfl⟩

/-- C6: a post file with no tags attribute yields a one-element tags
sequence containing the empty string, not an empty sequence. -/
theorem absent_tags_single_empty (render rtime vtime : String → String)
    (f : PostFile) (p : Post)
    (h : readPost render rtime vtime f = Except.ok p)
    (ht : f.attributes.tags = none) :
    p.tags = [""] := by
  rw [readPost_ok_elim h]
  show jsSplit (f.attributes.tags.getD "") ',' = [""]
  rw [ht]
  rfl

/-- Witness for C6 at a concrete file without tags. -/
theorem absent_tags_single_empty_witness :
    readPost exRender exRender exRender exFileB = Except.ok exPostB ∧
    exFileB.attributes.tags = none ∧ exPostB.tags = [""] :=
  ⟨rfl, rfl,
    absent_tags_single_empty exRender exRender exRender exFileB exPostB rfl rfl⟩

/-- C7: when the rendered HTML's first paragraph serializes to
`<p>Hello <b>world</b></p>`, the post's excerpt is exactly
`Hello <b>world</b>` — the wrapping paragraph tags are stripped by
prefix/suffix text removal. -/
theorem excerpt_strips_paragraph_tags (render rtime vtime : String → String)
    (f : PostFile)
    (h : render f.body = "<p>Hello <b>world</b></p>") :
    (mkPost render rtime vtime f).excerpt = "Hello <b>world</b>" := by
  show excerpt (render f.body) = "Hello <b>world</b>"
  rw [h]
  decide

/-- Witness for C7 with a concrete render function. -/
theorem excerpt_strips_paragraph_tags_witness :
    exRenderHello exFileA.body = "<p>Hello <b>world</b></p>" ∧
    (mkPost exRenderHello exRender exRender exFileA).excerpt =
      "Hello <b>world</b>" :=
  ⟨rfl,
    excerpt_strips_paragraph_tags exRenderHello exRender exRender exFileA rfl⟩

/-- C8: the tag-listing route loader keeps a post exactly when its parsed
tag list contains a string equal to the supplied tag. -/
theorem loader_exact_tag_filter (render rtime vtime : String → String)
    (files : List PostFile) (t : String) (l : List Post)
    (h : getPosts render rtime vtime files = Except.ok l) :
    loader render rtime vtime (some t) files =
      Except.ok ⟨t, l.filter (fun p => p.tags.contains t)⟩ ∧
    ∀ p : Post, p ∈ l.filter (fun p => p.tags.contains t) ↔
      p ∈ l ∧ t ∈ p.tags := by
  constructor
  · simp [loader, h]
  · intro p
    rw [List.mem_filter]
    refine and_congr_right fun _ => ?_
    constructor
    · intro hc
      obtain ⟨a, ha, hb⟩ := List.contains_iff_exists_mem_beq.1 hc
      rw [eq_of_beq hb]
      exact ha
    · intro hm
      exact List.contains_iff_exists_mem_beq.2 ⟨t, hm, by simp⟩

/-- Witness for C8 at a concrete directory and tag. -/
theorem loader_exact_tag_filter_witness :
    getPosts exRender exRender exRender [exFileA] = Except.ok [exPostA] ∧
    (loader exRender exRender exRender (some "b") [exFileA] =
       Except.ok ⟨"b", [exPostA].filter (fun p => p.tags.contains "b")⟩ ∧
     ∀ p : Post, p ∈ [exPostA].filter (fun p => p.tags.contains "b") ↔
       p ∈ [exPostA] ∧ "b" ∈ p.tags) :=
  ⟨rfl,
    loader_exact_tag_filter exRender exRender exRender [exFileA] "b" [exPostA]
      rfl⟩

/-- C9: every post constructed by `readPost` has a non-empty tags sequence,
since splitting any string on commas yields at least one token. -/
theorem tags_nonempty (render rtime vtime : String → String)
    (f : PostFile) (p : Post)
    (h : readPost render rtime vtime f = Except.ok p) :
    p.tags ≠ [] := by
  rw [readPost_ok_elim h]
  show jsSplit (f.attributes.tags.getD "") ',' ≠ []
  exact jsSplit_ne_nil _ _

/-- Witness for C9 at a concrete file. -/
theorem tags_nonempty_witness :
    readPost exRender exRender exRender exFileA = Except.ok exPostA ∧
    exPostA.tags ≠ [] :=
  ⟨rfl, tags_nonempty exRender exRender exRender exFileA exPostA rfl⟩

/-- C10: draft posts are read and validated before the draft filter, so a
draft file with invalid metadata still fails the whole `getPosts` batch —
the filter never masks a validation failure. -/
theorem draft_validated_before_filter (render rtime vtime : String → String)
    (files : List PostFile) (f : PostFile) (hf : f ∈ files)
    (_hdraft : f.attributes.draft = some true)
    (hbad : isValidPostAttributes f.attributes = false) :
    ∃ e, getPosts render rtime vtime files = Except.error e := by
  obtain ⟨e, he⟩ := mapExcept_error_of_mem render rtime vtime files f hf hbad
  exact ⟨e, getPosts_eq_error render rtime vtime files e he⟩

/-- Witness for C10 at a concrete directory with an invalid draft file. -/
theorem draft_validated_before_filter_witness :
    exFileBad ∈ [exFileA, exFileBad] ∧
    exFileBad.attributes.draft = some true ∧
    isValidPostAttributes exFileBad.attributes = false ∧
    ∃ e, getPosts exRender exRender exRender [exFileA, exFileBad] =
      Except.error e :=
  ⟨by decide, rfl, rfl,
    draft_validated_before_filter exRender exRender exRender
      [exFileA, exFileBad] exFileBad (by decide) rfl rfl⟩

end PostApi
